import Mathlib

/-!
Verification of the terrain paging / LOD subsystem
(src/renderer/geometry/terrain.rs) and of the render-target core
(src/core/render_target.rs and src/core.rs) of the `wasm-three-d`
rendering engine, against its natural-language specification.

The code is shallowly embedded: pure computation becomes Lean functions on
`Nat`/`Int`/`Rat` (the `u32`/`i32` values involved stay far from the wrap
boundary, which is proved where it matters), side-effecting code becomes a
trace of graphics-context events plus an explicit state-transition function,
and a Rust `panic!` becomes `Except.error`.
-/

/-- Rust's integer range `a..b` over `i32`, as a list of integers in
increasing order (empty when `b ≤ a`). -/
def intRange (a b : Int) : List Int :=
  (List.range (b - a).toNat).map (fun (n : Nat) => a + (n : Int))

/-! ## Terrain (src/renderer/geometry/terrain.rs)

Constants of terrain.rs: `PATCH_SIZE: f32 = 16.0`, `PATCHES_PER_SIDE: u32 = 33`,
`HALF_PATCHES_PER_SIDE: i32 = (PATCHES_PER_SIDE as i32 - 1) / 2`,
`VERTICES_PER_UNIT: usize = 4`,
`VERTICES_PER_SIDE: usize = (PATCH_SIZE + 1.0) as usize * VERTICES_PER_UNIT`.
`(PATCH_SIZE + 1.0) as usize` is exactly `17`. -/

/-- Constant `PATCHES_PER_SIDE = 33`. -/
def PATCHES_PER_SIDE : Nat := 33

/-- Constant `HALF_PATCHES_PER_SIDE = (33 - 1) / 2 = 16` (an `i32` in the source). -/
def HALF_PATCHES_PER_SIDE : Int := ((PATCHES_PER_SIDE : Int) - 1) / 2

/-- Constant `VERTICES_PER_UNIT = 4`. -/
def VERTICES_PER_UNIT : Nat := 4

/-- Constant `VERTICES_PER_SIDE = 17 * 4 = 68`. -/
def VERTICES_PER_SIDE : Nat := 17 * VERTICES_PER_UNIT

/-- A `GroundPatch`, reduced to its grid coordinate.  In the source a patch
also carries vertex and index buffers, but those are pure functions of
`(ix, iy)` and the height map (`GroundPatch::positions`, `GroundPatch::indices`
below), so the pager's observable behaviour is fully determined by the
coordinates. -/
structure GroundPatch where
  ix : Int
  iy : Int
deriving DecidableEq, Repr

/-- Names for the three precomputed index buffers of a `GroundPatch`
(`index_buffer` / `coarse_index_buffer` / `very_coarse_index_buffer`,
built at resolutions 1, 4 and 8). -/
inductive Lod where
  | fine
  | coarse
  | veryCoarse
deriving DecidableEq, Repr

/-- Method `GroundPatch::index_buffer(x0, y0)` (terrain.rs lines 153-162),
returning which of the three buffers is selected:

    let dist = (self.ix - x0).abs() + (self.iy - y0).abs();
    if dist > 4 { &self.very_coarse_index_buffer }
    else if dist > 8 { &self.coarse_index_buffer }
    else { &self.index_buffer }

The `i32` distance is a sum of two absolute values, hence nonnegative, so it
is embedded as a `Nat`. -/
def GroundPatch.index_buffer (p : GroundPatch) (x0 y0 : Int) : Lod :=
  let dist : Nat := (p.ix - x0).natAbs + (p.iy - y0).natAbs
  if dist > 4 then .veryCoarse
  else if dist > 8 then .coarse
  else .fine

/-- Associated function `GroundPatch::indices(resolution)` (terrain.rs lines
164-179): two triangles per decimated quad, row-major over the sampled grid.
The pushed values are `u32` in the source; they stay below
`VERTICES_PER_SIDE^2 = 4624` (proved below), far from `2^32`, so `Nat` is
exact. -/
def GroundPatch.indices (resolution : Nat) : List Nat :=
  let stride : Nat := VERTICES_PER_SIDE
  let mx : Nat := (stride - 1) / resolution
  (List.range mx).flatMap (fun r =>
    (List.range mx).flatMap (fun c =>
      [r * resolution + c * resolution * stride,
       r * resolution + resolution + c * resolution * stride,
       r * resolution + (c * resolution + resolution) * stride,
       r * resolution + (c * resolution + resolution) * stride,
       r * resolution + resolution + c * resolution * stride,
       r * resolution + resolution + (c * resolution + resolution) * stride]))

/-- Constant `VERTEX_DISTANCE = 1.0 / VERTICES_PER_UNIT as f32 = 0.25`,
exactly representable in `f32`, embedded as the exact rational. -/
def VERTEX_DISTANCE : Rat := 1 / (VERTICES_PER_UNIT : Rat)

/-- Associated function `GroundPatch::positions(height_map, offset)`
(terrain.rs lines 181-192).  The source fills a vector of length
`VERTICES_PER_SIDE * VERTICES_PER_SIDE` at index `vertex_id = r * VERTICES_PER_SIDE + c`
while iterating `r` outer, `c` inner, which is exactly row-major order.  The
externally supplied `f32` height map is abstracted as a rational-valued
function; the sample coordinates `offset + r * VERTEX_DISTANCE` are modelled
exactly. -/
def GroundPatch.positions (height_map : Rat → Rat → Rat) (offset : Rat × Rat) :
    List (Rat × Rat × Rat) :=
  (List.range VERTICES_PER_SIDE).flatMap (fun (r : Nat) =>
    (List.range VERTICES_PER_SIDE).map (fun (c : Nat) =>
      let x := offset.1 + (r : Rat) * VERTEX_DISTANCE
      let z := offset.2 + (c : Rat) * VERTEX_DISTANCE
      (x, height_map x z, z)))

/-- State of `Terrain` (terrain.rs lines 12-17): the cached center patch
coordinate and the live patch collection, in creation order.  The `Context`
and material fields play no part in the paging logic. -/
structure Terrain where
  center : Int × Int
  patches : List GroundPatch
deriving DecidableEq, Repr

/-- Constructor `Terrain::new` (terrain.rs lines 19-39), taking the patch
coordinate `(x0, y0)` that `Self::pos2patch(position)` computes: one patch for
every `ix` in `x0-16..x0+17` (outer loop) and `iy` in `y0-16..y0+17` (inner
loop). -/
def Terrain.new (x0 y0 : Int) : Terrain :=
  { center := (x0, y0),
    patches :=
      (intRange (x0 - HALF_PATCHES_PER_SIDE) (x0 + HALF_PATCHES_PER_SIDE + 1)).flatMap
        (fun ix =>
          (intRange (y0 - HALF_PATCHES_PER_SIDE) (y0 + HALF_PATCHES_PER_SIDE + 1)).map
            (fun iy => ⟨ix, iy⟩)) }

/-- First loop of `Terrain::update` (terrain.rs lines 44-56):
`while x0 > self.center.0`, increment `center.0`, then push a column of new
patches at `ix = center.0 + HALF_PATCHES_PER_SIDE` for every
`iy in center.1 - HALF..center.1 + HALF + 1`. -/
def whileXUp (x0 : Int) (s : Terrain) : Terrain :=
  if x0 > s.center.1 then
    whileXUp x0
      { center := (s.center.1 + 1, s.center.2),
        patches := s.patches ++
          (intRange (s.center.2 - HALF_PATCHES_PER_SIDE)
              (s.center.2 + HALF_PATCHES_PER_SIDE + 1)).map
            (fun iy => ⟨s.center.1 + 1 + HALF_PATCHES_PER_SIDE, iy⟩) }
  else s
termination_by (x0 - s.center.1).toNat
decreasing_by omega

/-- Second loop of `Terrain::update` (terrain.rs lines 58-70):
`while x0 < self.center.0`, decrement `center.0`, push the column at
`ix = center.0 - HALF_PATCHES_PER_SIDE`. -/
def whileXDown (x0 : Int) (s : Terrain) : Terrain :=
  if x0 < s.center.1 then
    whileXDown x0
      { center := (s.center.1 - 1, s.center.2),
        patches := s.patches ++
          (intRange (s.center.2 - HALF_PATCHES_PER_SIDE)
              (s.center.2 + HALF_PATCHES_PER_SIDE + 1)).map
            (fun iy => ⟨s.center.1 - 1 - HALF_PATCHES_PER_SIDE, iy⟩) }
  else s
termination_by (s.center.1 - x0).toNat
decreasing_by omega

/-- Third loop of `Terrain::update` (terrain.rs lines 71-83):
`while y0 > self.center.1`, increment `center.1`, push the row at
`iy = center.1 + HALF_PATCHES_PER_SIDE` for every
`ix in center.0 - HALF..center.0 + HALF + 1`. -/
def whileYUp (y0 : Int) (s : Terrain) : Terrain :=
  if y0 > s.center.2 then
    whileYUp y0
      { center := (s.center.1, s.center.2 + 1),
        patches := s.patches ++
          (intRange (s.center.1 - HALF_PATCHES_PER_SIDE)
              (s.center.1 + HALF_PATCHES_PER_SIDE + 1)).map
            (fun ix => ⟨ix, s.center.2 + 1 + HALF_PATCHES_PER_SIDE⟩) }
  else s
termination_by (y0 - s.center.2).toNat
decreasing_by omega

/-- Fourth loop of `Terrain::update` (terrain.rs lines 85-97):
`while y0 < self.center.1`, decrement `center.1`, push the row at
`iy = center.1 - HALF_PATCHES_PER_SIDE`. -/
def whileYDown (y0 : Int) (s : Terrain) : Terrain :=
  if y0 < s.center.2 then
    whileYDown y0
      { center := (s.center.1, s.center.2 - 1),
        patches := s.patches ++
          (intRange (s.center.1 - HALF_PATCHES_PER_SIDE)
              (s.center.1 + HALF_PATCHES_PER_SIDE + 1)).map
            (fun ix => ⟨ix, s.center.2 - 1 - HALF_PATCHES_PER_SIDE⟩) }
  else s
termination_by (s.center.2 - y0).toNat
decreasing_by omega

/-- Method `Terrain::update` (terrain.rs lines 41-102), taking the patch
coordinate `(x0, y0)` of the new position: the four single-axis shift loops in
source order, then `patches.retain(|p| (x0 - p.ix).abs() <= HALF && (y0 - p.iy).abs() <= HALF)`. -/
def Terrain.update (x0 y0 : Int) (s : Terrain) : Terrain :=
  let s4 := whileYDown y0 (whileYUp y0 (whileXDown x0 (whileXUp x0 s)))
  { s4 with
    patches := s4.patches.filter (fun p =>
      decide ((x0 - p.ix).natAbs ≤ HALF_PATCHES_PER_SIDE.toNat ∧
              (y0 - p.iy).natAbs ≤ HALF_PATCHES_PER_SIDE.toNat)) }

/-- Window predicate of the spec: patch `p` lies within ±`HALF_PATCHES_PER_SIDE`
of center `c` on each axis independently. -/
def inWindow (c : Int × Int) (p : GroundPatch) : Prop :=
  (p.ix - c.1).natAbs ≤ HALF_PATCHES_PER_SIDE.toNat ∧
  (p.iy - c.2).natAbs ≤ HALF_PATCHES_PER_SIDE.toNat

instance (c : Int × Int) (p : GroundPatch) : Decidable (inWindow c p) := by
  unfold inWindow; infer_instance

/-- The pager's window invariant: the live patches are pairwise distinct and
are exactly the patches of the ±16 window around the cached center. -/
def TerrainInv (s : Terrain) : Prop :=
  s.patches.Nodup ∧ ∀ p : GroundPatch, p ∈ s.patches ↔ inWindow s.center p

/-! ## Pixel-buffer flip (src/core.rs lines 100-108)

A pixel buffer is embedded as the function from flat index to pixel value; a
slice of length `width * height` is the restriction of such a function to
indices below `width * height`, and `pixels.swap(i, j)` is the pointwise
function update `swapAt`.  Every index the loops touch is below
`width * height`, so on in-bounds buffers the embedding agrees with the
source's in-place swaps. -/

/-- Exchange of the values at indices `i` and `j` (the slice `swap`). -/
def swapAt {α : Type} (pixels : Nat → α) (i j : Nat) : Nat → α :=
  fun k => if k = i then pixels j else if k = j then pixels i else pixels k

/-- Function `flip_y(pixels, width, height)` (core.rs lines 100-108):

    for row in 0..height / 2 {
        for col in 0..width {
            let index0 = width * row + col;
            let index1 = width * (height - row - 1) + col;
            pixels.swap(index0, index1);
        }
    }
-/
def flip_y {α : Type} (pixels : Nat → α) (width height : Nat) : Nat → α :=
  (List.range (height / 2)).foldl
    (fun px row =>
      (List.range width).foldl
        (fun px col => swapAt px (width * row + col) (width * (height - row - 1) + col))
        px)
    pixels

/-! ## Render targets (src/core/render_target.rs)

The graphics context is the external collaborator; what the render-target
code does to it is captured as a trace of `GLEvent`s in call order, and the
effect of a trace on the context's observable state is `applyTrace`.  A
caller-supplied rendering closure is represented by the trace it emits when
run. -/

/-- Constant `context::DRAW_FRAMEBUFFER` (GL enum 0x8CA9). -/
def DRAW_FRAMEBUFFER : Nat := 36009

/-- Constant `context::READ_FRAMEBUFFER` (GL enum 0x8CA8). -/
def READ_FRAMEBUFFER : Nat := 36008

/-- Modelled from the spec: `ColorTarget` (color_target.rs is declared by
render_target.rs but is not among the source files).  Per the spec it is a
pure attachment descriptor exposing `width()`/`height()` derived from the
texture's base size and mip level; only those two observables are needed
here, so they are the fields. -/
structure ColorTarget where
  width : Nat
  height : Nat
deriving DecidableEq, Repr

/-- Modelled from the spec: `DepthTarget` (depth_target.rs is not among the
source files), analogous to `ColorTarget`. -/
structure DepthTarget where
  width : Nat
  height : Nat
deriving DecidableEq, Repr

/-- Modelled from the spec: `WriteMask` (render_states.rs is not among the
source files): which of the R, G, B, A and depth channels a pass may write. -/
structure WriteMask where
  red : Bool
  green : Bool
  blue : Bool
  alpha : Bool
  depth : Bool
deriving DecidableEq, Repr

/-- Modelled from the spec: `ScissorBox` (scissor_box.rs is not among the
source files): the rectangle `(x, y, width, height)` an operation may affect;
`new_at_origo` is the whole target.  All four fields are `u32`. -/
structure ScissorBox where
  x : Nat
  y : Nat
  width : Nat
  height : Nat
deriving DecidableEq, Repr

/-- Struct `RenderTarget` (render_target.rs lines 26-33): optional framebuffer
handle (`none` = default/screen framebuffer), optional attachments, cached
size.  Framebuffer handles are embedded as `Nat`. -/
structure RenderTarget where
  id : Option Nat
  color : Option ColorTarget
  depth : Option DepthTarget
  width : Nat
  height : Nat
deriving DecidableEq, Repr

/-- Constructor `RenderTarget::screen` (render_target.rs lines 40-49): no
framebuffer object, no attachments. -/
def RenderTarget.screen (width height : Nat) : RenderTarget :=
  { id := none, color := none, depth := none, width := width, height := height }

/-- Constructor `RenderTarget::new(color, depth)` (render_target.rs lines
54-65): allocates one framebuffer (`new_framebuffer`; the fresh handle's value
is irrelevant, fixed here to `0`) and caches `color.width()` /
`color.height()` as the target's size.  The depth attachment's size is not
consulted. -/
def RenderTarget.new (color : ColorTarget) (depth : DepthTarget) : RenderTarget :=
  { id := some 0, color := some color, depth := some depth,
    width := color.width, height := color.height }

/-- Constructor `RenderTarget::new_color` (render_target.rs lines 265-276). -/
def RenderTarget.new_color (color : ColorTarget) : RenderTarget :=
  { id := some 0, color := some color, depth := none,
    width := color.width, height := color.height }

/-- Constructor `RenderTarget::new_depth` (render_target.rs lines 278-289). -/
def RenderTarget.new_depth (depth : DepthTarget) : RenderTarget :=
  { id := some 0, color := none, depth := some depth,
    width := depth.width, height := depth.height }

/-- Method `RenderTarget::scissor_box` (render_target.rs lines 233-235):
`ScissorBox::new_at_origo(self.width, self.height)`. -/
def RenderTarget.scissor_box (rt : RenderTarget) : ScissorBox :=
  { x := 0, y := 0, width := rt.width, height := rt.height }

/-- One observable call into the graphics context. -/
inductive GLEvent where
  | setScissor (sb : ScissorBox)
  | bindFramebuffer (target : Nat) (id : Option Nat)
  | bindColorAttachment
  | bindDepthAttachment
  | generateMipMaps
  | drawEffect (viewport : ScissorBox) (mask : WriteMask)
deriving DecidableEq, Repr

/-- Method `RenderTarget::bind(target)` (render_target.rs lines 291-302):
bind the framebuffer (or the default one when `id` is `none`), then bind the
color and depth attachments when present. -/
def RenderTarget.bindTrace (rt : RenderTarget) (target : Nat) : List GLEvent :=
  [.bindFramebuffer target rt.id]
    ++ (if rt.color.isSome then [.bindColorAttachment] else [])
    ++ (if rt.depth.isSome then [.bindDepthAttachment] else [])

/-- Method `RenderTarget::write_partially(scissor_box, render)` (render_target.rs
lines 94-102): set the scissor, bind for drawing, run the closure to
completion, then regenerate the color attachment's mip chain when a color
attachment exists; returns `&self` (the unchanged target) paired with the
emitted trace. -/
def RenderTarget.write_partially (rt : RenderTarget) (scissor_box : ScissorBox)
    (render : List GLEvent) : RenderTarget × List GLEvent :=
  ( rt,
    [GLEvent.setScissor scissor_box] ++ rt.bindTrace DRAW_FRAMEBUFFER ++ render
      ++ (if rt.color.isSome then [GLEvent.generateMipMaps] else []) )

/-- Method `RenderTarget::write(render)` (render_target.rs lines 87-89):
`write_partially` over the whole target. -/
def RenderTarget.write (rt : RenderTarget) (render : List GLEvent) :
    RenderTarget × List GLEvent :=
  rt.write_partially rt.scissor_box render

/-- Source color texture for `copy_from`, abstracted to its handle. -/
structure Texture2D where
  handle : Nat
deriving DecidableEq, Repr

/-- Source depth texture for `copy_from`, abstracted to its handle. -/
structure DepthTargetTexture2D where
  handle : Nat
deriving DecidableEq, Repr

/-- Free function `copy_from` (render_target.rs lines 330-393): when at least
one source texture is given, one full-screen effect pass over `viewport` with
the per-channel write mask restricted to the channels whose source is present;
when neither is given, nothing at all. -/
def copy_from (color_texture : Option Texture2D)
    (depth_texture : Option DepthTargetTexture2D) (viewport : ScissorBox)
    (write_mask : WriteMask) : List GLEvent :=
  if color_texture.isSome || depth_texture.isSome then
    [GLEvent.drawEffect viewport
      { red := color_texture.isSome && write_mask.red,
        green := color_texture.isSome && write_mask.green,
        blue := color_texture.isSome && write_mask.blue,
        alpha := color_texture.isSome && write_mask.alpha,
        depth := depth_texture.isSome && write_mask.depth }]
  else []

/-- Alias for the free function `copy_from`, needed because inside
`RenderTarget.copy_from` the bare name resolves to the method itself. -/
def copyFromPass : Option Texture2D → Option DepthTargetTexture2D → ScissorBox →
    WriteMask → List GLEvent :=
  copy_from

/-- Method `RenderTarget::copy_from` (render_target.rs lines 190-206):
`self.write(|| copy_from(ctx, color, depth, scissor_box.into(), mask))` — the
scissor box is converted to the inner pass's viewport, while `write` scissors
to the whole target. -/
def RenderTarget.copy_from (rt : RenderTarget) (color_texture : Option Texture2D)
    (depth_texture : Option DepthTargetTexture2D) (scissor_box : ScissorBox)
    (write_mask : WriteMask) : RenderTarget × List GLEvent :=
  rt.write (copyFromPass color_texture depth_texture scissor_box write_mask)

/-- Observable graphics-context state for judging what a trace changes:
current scissor rectangle, bound draw/read framebuffers (`none` = default),
and counters of mip regenerations and draw passes issued. -/
structure GLState where
  scissor : ScissorBox
  drawFramebuffer : Option Nat
  readFramebuffer : Option Nat
  mipRegens : Nat
  draws : Nat
deriving DecidableEq, Repr

/-- Effect of one event on the observable context state. -/
def applyEvent (st : GLState) (e : GLEvent) : GLState :=
  match e with
  | .setScissor sb => { st with scissor := sb }
  | .bindFramebuffer t id =>
      if t = DRAW_FRAMEBUFFER then { st with drawFramebuffer := id }
      else if t = READ_FRAMEBUFFER then { st with readFramebuffer := id }
      else st
  | .bindColorAttachment => st
  | .bindDepthAttachment => st
  | .generateMipMaps => { st with mipRegens := st.mipRegens + 1 }
  | .drawEffect _ _ => { st with draws := st.draws + 1 }

/-- Effect of a trace, first event first. -/
def applyTrace (st : GLState) (tr : List GLEvent) : GLState :=
  tr.foldl applyEvent st

/-- Method `RenderTarget::read_color_partially` (render_target.rs lines
120-151).  The `panic!` on a framebuffer-backed target without a color
attachment is `Except.error` with the source's message; otherwise the GPU
read-back — the external `read_pixels` capability — supplies the pixel data,
which is returned flipped vertically by `flip_y` over the scissor box's size.
(The byte-level transfer sizing on the way is external I/O plumbing with no
observable effect on the returned pixels.) -/
def RenderTarget.read_color_partially {α : Type} (rt : RenderTarget) (scissor_box : ScissorBox)
    (read_pixels : Nat → α) : Except String (Nat → α) :=
  if rt.id.isSome && rt.color.isNone then
    .error "cannot read color from a render target without a color target"
  else
    .ok (flip_y read_pixels scissor_box.width scissor_box.height)

/-- Method `RenderTarget::read_color` (render_target.rs lines 110-112):
`read_color_partially` over the whole target. -/
def RenderTarget.read_color {α : Type} (rt : RenderTarget) (read_pixels : Nat → α) :
    Except String (Nat → α) :=
  rt.read_color_partially rt.scissor_box read_pixels

/-- Strip of patches that the two x-direction shift loops of
`Terrain::update` create, relative to the old center `c` and the target
x-coordinate `x0` (empty when `x0 = c.1`). -/
def stripX (c : Int × Int) (x0 : Int) (p : GroundPatch) : Prop :=
  ((c.1 < x0 ∧ c.1 + 16 < p.ix ∧ p.ix ≤ x0 + 16) ∨
   (x0 < c.1 ∧ x0 - 16 ≤ p.ix ∧ p.ix < c.1 - 16)) ∧
  c.2 - 16 ≤ p.iy ∧ p.iy ≤ c.2 + 16

/-- Strip of patches that the two y-direction shift loops of
`Terrain::update` create, relative to the old center `c` and the target
`(x0, y0)` (the x loops have already moved the center to `x0`). -/
def stripY (c : Int × Int) (x0 y0 : Int) (p : GroundPatch) : Prop :=
  x0 - 16 ≤ p.ix ∧ p.ix ≤ x0 + 16 ∧
  ((c.2 < y0 ∧ c.2 + 16 < p.iy ∧ p.iy ≤ y0 + 16) ∨
   (y0 < c.2 ∧ y0 - 16 ≤ p.iy ∧ p.iy < c.2 - 16))

/-! ## Toolkit lemmas -/

theorem HALF_eq : HALF_PATCHES_PER_SIDE = 16 := by decide

theorem mem_intRange {a b x : Int} : x ∈ intRange a b ↔ a ≤ x ∧ x < b := by
  simp only [intRange, List.mem_map, List.mem_range]
  constructor
  · rintro ⟨i, hi, rfl⟩
    omega
  · rintro ⟨h1, h2⟩
    exact ⟨(x - a).toNat, by omega, by omega⟩

theorem intRange_length (a b : Int) : (intRange a b).length = (b - a).toNat := by
  simp [intRange]

theorem intRange_eq_cons {a b : Int} (h : a < b) :
    intRange a b = a :: intRange (a + 1) b := by
  have hn : (b - a).toNat = (b - (a + 1)).toNat + 1 := by omega
  simp only [intRange, hn, List.range_succ_eq_map, List.map_cons, List.map_map]
  congr 1
  · omega
  apply List.map_congr_left
  intro i _
  simp only [Function.comp_apply, Nat.succ_eq_add_one]
  omega

theorem intRange_nodup (a b : Int) : (intRange a b).Nodup := by
  apply List.Nodup.map
  · intro i j hij
    simp only at hij
    omega
  · exact List.nodup_range _

theorem length_eq_of_same_mem {α : Type} [DecidableEq α] {l₁ l₂ : List α}
    (h₁ : l₁.Nodup) (h₂ : l₂.Nodup) (h : ∀ p, p ∈ l₁ ↔ p ∈ l₂) :
    l₁.length = l₂.length :=
  ((List.perm_ext_iff_of_nodup h₁ h₂).2 h).length_eq

theorem nodup_flatMap_map {β : Type} [DecidableEq β] (l₁ l₂ : List Int)
    (h₁ : l₁.Nodup) (h₂ : l₂.Nodup) (f : Int → Int → β)
    (hf : ∀ a a' b b', f a b = f a' b' → a = a' ∧ b = b') :
    (l₁.flatMap (fun a => l₂.map (f a))).Nodup := by
  induction l₁ with
  | nil => simp
  | cons a t ih =>
      simp only [List.flatMap_cons, List.nodup_cons] at *
      rw [List.nodup_append]
      refine ⟨?_, ih h₁.2, ?_⟩
      · exact h₂.map fun b b' hbb' => (hf a a b b' hbb').2
      · intro x hx hx'
        simp only [List.mem_map] at hx
        simp only [List.mem_flatMap, List.mem_map] at hx'
        obtain ⟨b, _, rfl⟩ := hx
        obtain ⟨a', ha', b', _, heq⟩ := hx'
        obtain ⟨rfl, rfl⟩ := hf a' a b' b heq
        exact h₁.1 ha'

/-! ## Claim C1: LOD index-buffer selection -/

/-- Claim C1 (code evidence).  The claim states the three-tier policy
"fine for distance ≤ 4, coarse for 4 < distance ≤ 8, very-coarse for
distance > 8", with distance 5 selecting the coarse buffer.  The code checks
`dist > 4` before `dist > 8`, so the coarse arm is dead: at patch (5,0) and
camera patch (0,0) the Manhattan distance is 5 and the very-coarse buffer is
selected, and no input whatsoever selects the coarse buffer. -/
theorem index_buffer_coarse_unreachable :
    (GroundPatch.mk 5 0).index_buffer 0 0 = Lod.veryCoarse ∧
    ((5 : Int) - 0).natAbs + ((0 : Int) - 0).natAbs = 5 ∧
    ∀ (p : GroundPatch) (x0 y0 : Int), p.index_buffer x0 y0 ≠ Lod.coarse := by
  refine ⟨by decide, by decide, ?_⟩
  intro p x0 y0
  unfold GroundPatch.index_buffer
  by_cases h : ((p.ix - x0).natAbs + (p.iy - y0).natAbs) > 4
  · simp [h]
  · have h8 : ¬ ((p.ix - x0).natAbs + (p.iy - y0).natAbs) > 8 := by omega
    simp [h, h8]

/-! ## Claim C3: reading color without a color attachment -/

/-- Claim C3 counterexample.  The claim says a screen-derived target fails
the color read with the attachment-missing error; in the code the guard is
`id.is_some() && color.is_none()`, and a screen target has `id = None`, so
both reads succeed instead of failing. -/
theorem read_color_screen_succeeds :
    ((RenderTarget.screen 8 8).read_color (fun _ => (0 : Nat))).isOk = true ∧
    ((RenderTarget.screen 8 8).read_color_partially ⟨0, 0, 8, 8⟩
        (fun _ => (0 : Nat))).isOk = true :=
  ⟨rfl, rfl⟩

/-- Claim C3, amended: `read_color` / `read_color_partially` fail with the
attachment-missing error exactly on targets that have a framebuffer id but no
color attachment (such as depth-only targets); a screen target (`id = None`)
is not rejected and proceeds to read the default framebuffer. -/
theorem read_color_missing_attachment_error {α : Type} (rt : RenderTarget)
    (sb : ScissorBox) (read_pixels : Nat → α)
    (hid : rt.id.isSome = true) (hcolor : rt.color = none) :
    rt.read_color_partially sb read_pixels =
      Except.error "cannot read color from a render target without a color target" ∧
    rt.read_color read_pixels =
      Except.error "cannot read color from a render target without a color target" := by
  unfold RenderTarget.read_color RenderTarget.read_color_partially
  simp [hid, hcolor]

/-- Claim C3 witness: a depth-only target (built by `RenderTarget::new_depth`)
satisfies the amended theorem's hypotheses, and its color read fails. -/
theorem read_color_missing_attachment_error_witness :
    (RenderTarget.new_depth ⟨4, 4⟩).read_color (fun _ => (0 : Nat)) =
      Except.error "cannot read color from a render target without a color target" :=
  (read_color_missing_attachment_error (RenderTarget.new_depth ⟨4, 4⟩)
    (RenderTarget.new_depth ⟨4, 4⟩).scissor_box (fun _ => (0 : Nat)) rfl rfl).2

/-! ## Claim C4: dimensions of a target built from color and depth -/

/-- Claim C4 counterexample.  Constructing a target from a 4×4 color
attachment and an 8×8 depth attachment is not rejected: `RenderTarget::new`
produces a target, caches the color attachment's size, and
`width() = 4 ≠ 8 = depth.width()`. -/
theorem new_mismatched_produces_target :
    (RenderTarget.new ⟨4, 4⟩ ⟨8, 8⟩).width = 4 ∧
    (RenderTarget.new ⟨4, 4⟩ ⟨8, 8⟩).depth = some ⟨8, 8⟩ ∧
    (RenderTarget.new ⟨4, 4⟩ ⟨8, 8⟩).width ≠ (8 : Nat) := by
  refine ⟨rfl, rfl, by decide⟩

/-- Claim C4, amended: `RenderTarget::new(color, depth)` always caches the
color attachment's dimensions — `width() = color.width()` and
`height() = color.height()` — and these also equal the depth attachment's
dimensions whenever the two attachments agree; mismatched attachments are not
rejected (see the counterexample). -/
theorem new_dimensions (color : ColorTarget) (depth : DepthTarget) :
    (RenderTarget.new color depth).width = color.width ∧
    (RenderTarget.new color depth).height = color.height ∧
    (color.width = depth.width → (RenderTarget.new color depth).width = depth.width) ∧
    (color.height = depth.height → (RenderTarget.new color depth).height = depth.height) := by
  refine ⟨rfl, rfl, fun h => h, fun h => h⟩

/-- Claim C4 witness: for a matching 4×6 pair the constructed target has the
common dimensions. -/
theorem new_dimensions_witness :
    (RenderTarget.new ⟨4, 6⟩ ⟨4, 6⟩).width = (⟨4, 6⟩ : DepthTarget).width ∧
    (RenderTarget.new ⟨4, 6⟩ ⟨4, 6⟩).height = (⟨4, 6⟩ : DepthTarget).height :=
  ⟨(new_dimensions ⟨4, 6⟩ ⟨4, 6⟩).2.2.1 rfl, (new_dimensions ⟨4, 6⟩ ⟨4, 6⟩).2.2.2 rfl⟩

/-! ## Claim C7: index count of `GroundPatch::indices` -/

/-- Claim C7: for every resolution ≥ 1, `indices(resolution)` emits
`2 * ((VERTICES_PER_SIDE - 1) / resolution)^2 * 3` indices (two triangles of
three indices per decimated quad). -/
theorem length_flatMap_const {α β : Type} (l : List α) (f : α → List β) (k : Nat)
    (h : ∀ a ∈ l, (f a).length = k) : (l.flatMap f).length = l.length * k := by
  induction l with
  | nil => simp
  | cons a t ih =>
      have ha : (f a).length = k := h a (by simp)
      have ht := ih (fun x hx => h x (by simp [hx]))
      simp only [List.flatMap_cons, List.length_append, List.length_cons, ha, ht]
      ring

theorem indices_length (resolution : Nat) (_h : 1 ≤ resolution) :
    (GroundPatch.indices resolution).length =
      2 * ((VERTICES_PER_SIDE - 1) / resolution) ^ 2 * 3 := by
  unfold GroundPatch.indices
  rw [length_flatMap_const _ _ (((VERTICES_PER_SIDE - 1) / resolution) * 6) ?inner]
  · simp only [List.length_range]
    ring
  case inner =>
    intro r _
    rw [length_flatMap_const _ _ 6 ?six]
    · simp only [List.length_range]
    case six =>
      intro c _
      rfl

/-- Claim C7 witness: the theorem applied at the used resolution 4. -/
theorem indices_length_witness :
    (GroundPatch.indices 4).length = 2 * ((VERTICES_PER_SIDE - 1) / 4) ^ 2 * 3 :=
  indices_length 4 (by decide)

/-! ## Claim C10: every emitted index addresses an existing vertex -/

/-- Claim C10: at each of the three used resolutions, every index produced by
`GroundPatch::indices` is below `VERTICES_PER_SIDE^2 = 4624`, the length of
the position (and normal) buffer, so every index addresses a vertex that
exists. -/
theorem indices_within_vertex_count (resolution : Nat)
    (_h : resolution = 1 ∨ resolution = 4 ∨ resolution = 8) :
    (∀ i ∈ GroundPatch.indices resolution,
        i < VERTICES_PER_SIDE * VERTICES_PER_SIDE) ∧
    (∀ (height_map : Rat → Rat → Rat) (offset : Rat × Rat),
        (GroundPatch.positions height_map offset).length =
          VERTICES_PER_SIDE * VERTICES_PER_SIDE) := by
  constructor
  · intro i hi
    unfold GroundPatch.indices at hi
    simp only [List.mem_flatMap, List.mem_range, List.mem_cons, List.not_mem_nil,
      or_false] at hi
    obtain ⟨r, hr, c, hc, hi⟩ := hi
    have hV : VERTICES_PER_SIDE = 68 := by decide
    rw [hV] at hr hc hi ⊢
    have hmul : (68 - 1) / resolution * resolution ≤ 68 - 1 :=
      Nat.div_mul_le_self _ resolution
    have hA : r * resolution + resolution ≤ 67 := by
      have h2 : (r + 1) * resolution ≤ (68 - 1) / resolution * resolution :=
        Nat.mul_le_mul_right _ hr
      calc r * resolution + resolution = (r + 1) * resolution := by ring
        _ ≤ (68 - 1) / resolution * resolution := h2
        _ ≤ 67 := hmul
    have hB : c * resolution + resolution ≤ 67 := by
      have h2 : (c + 1) * resolution ≤ (68 - 1) / resolution * resolution :=
        Nat.mul_le_mul_right _ hc
      calc c * resolution + resolution = (c + 1) * resolution := by ring
        _ ≤ (68 - 1) / resolution * resolution := h2
        _ ≤ 67 := hmul
    rcases hi with rfl | rfl | rfl | rfl | rfl | rfl <;>
      · generalize r * resolution = A at hA ⊢
        generalize c * resolution = B at hB ⊢
        omega
  · intro height_map offset
    unfold GroundPatch.positions
    rw [length_flatMap_const _ _ VERTICES_PER_SIDE (fun r _ => by simp)]
    simp only [List.length_range]

/-- Claim C10 witness: the theorem applied at resolution 8, at the concrete
emitted index 0, and at a concrete height map and offset for the vertex
count. -/
theorem indices_within_vertex_count_witness :
    (0 : Nat) ∈ GroundPatch.indices 8 ∧
    (0 : Nat) < VERTICES_PER_SIDE * VERTICES_PER_SIDE ∧
    (GroundPatch.positions (fun _ _ => 0) (0, 0)).length =
      VERTICES_PER_SIDE * VERTICES_PER_SIDE :=
  ⟨by decide, (indices_within_vertex_count 8 (by decide)).1 0 (by decide),
    (indices_within_vertex_count 8 (by decide)).2 (fun _ _ => 0) (0, 0)⟩

/-! ## Claim C8: ordering inside `write` / `write_partially` -/

/-- Claim C8: `write_partially` sets the scissor and binds the target for
drawing before the caller's closure, runs the closure's work to completion in
place, regenerates the color attachment's mip chain only after the closure and
only when a color attachment exists, and returns the same target; `write` is
`write_partially` over the whole target. -/
theorem write_ordering (rt : RenderTarget) (sb : ScissorBox) (render : List GLEvent) :
    (rt.write_partially sb render).1 = rt ∧
    (∃ pre post,
      (rt.write_partially sb render).2 = pre ++ render ++ post ∧
      pre = [GLEvent.setScissor sb] ++ rt.bindTrace DRAW_FRAMEBUFFER ∧
      post = (if rt.color.isSome then [GLEvent.generateMipMaps] else []) ∧
      (GLEvent.generateMipMaps ∈ post ↔ rt.color.isSome = true) ∧
      GLEvent.generateMipMaps ∉ pre) ∧
    rt.write render = rt.write_partially rt.scissor_box render := by
  refine ⟨rfl, ⟨_, _, ?_, rfl, rfl, ?_, ?_⟩, rfl⟩
  · simp [RenderTarget.write_partially]
  · cases hc : rt.color.isSome <;> simp [hc]
  · unfold RenderTarget.bindTrace
    cases hc : rt.color.isSome <;> cases hd : rt.depth.isSome <;> simp [hc, hd]

/-! ## Claim C9: `copy_from` with neither source -/

/-- Claim C9 counterexample.  With both sources absent, `copy_from` is not a
complete no-op on the observable graphics state: it still goes through
`write`, which sets the scissor to the whole target, binds the framebuffer,
and regenerates the color attachment's mip chain.  Starting from a context
whose scissor is 1×1 and with nothing bound, the state afterwards differs. -/
theorem copy_from_none_none_changes_state :
    applyTrace ⟨⟨0, 0, 1, 1⟩, none, none, 0, 0⟩
        ((RenderTarget.new ⟨8, 8⟩ ⟨8, 8⟩).copy_from none none ⟨0, 0, 8, 8⟩
          ⟨true, true, true, true, true⟩).2 ≠
      ⟨⟨0, 0, 1, 1⟩, none, none, 0, 0⟩ := by
  decide

/-- Claim C9, amended: with neither source given, `copy_from` issues no draw
pass at all — the inner full-screen copy emits nothing, so the target's pixel
contents are untouched and the trace is exactly that of `write` with an empty
closure (scissor set, target bound, plus the mip regeneration `write` always
performs when a color attachment exists); the target itself is returned
unchanged. -/
theorem copy_from_none_none_no_draw (rt : RenderTarget) (sb : ScissorBox)
    (mask : WriteMask) :
    (rt.copy_from none none sb mask).1 = rt ∧
    (rt.copy_from none none sb mask).2 = (rt.write []).2 ∧
    (∀ v m, GLEvent.drawEffect v m ∉ (rt.copy_from none none sb mask).2) ∧
    (∀ st : GLState,
      (applyTrace st (rt.copy_from none none sb mask).2).draws = st.draws) := by
  refine ⟨rfl, by simp [RenderTarget.copy_from, copyFromPass, copy_from], ?_, ?_⟩
  · intro v m
    unfold RenderTarget.copy_from copyFromPass copy_from RenderTarget.write
      RenderTarget.write_partially RenderTarget.bindTrace
    cases hc : rt.color.isSome <;> cases hd : rt.depth.isSome <;> simp [hc, hd]
  · intro st
    unfold RenderTarget.copy_from copyFromPass copy_from RenderTarget.write
      RenderTarget.write_partially RenderTarget.bindTrace
    cases hc : rt.color.isSome <;> cases hd : rt.depth.isSome <;>
      simp [hc, hd, applyTrace, applyEvent]

/-! ## Claim C6: vertical flip -/

theorem swapAt_apply {α : Type} (px : Nat → α) (i j k : Nat) :
    swapAt px i j k = if k = i then px j else if k = j then px i else px k := rfl

theorem inner_swap_fold_apply {α : Type} (a b w : Nat) (hab : a + w ≤ b) :
    ∀ (n : Nat) (px : Nat → α) (k : Nat), n ≤ w →
      ((List.range n).foldl (fun px col => swapAt px (a + col) (b + col)) px) k =
        if a ≤ k ∧ k < a + n then px (b + (k - a))
        else if b ≤ k ∧ k < b + n then px (a + (k - b))
        else px k := by
  intro n
  induction n with
  | zero =>
      intro px k _
      simp only [List.range_zero, List.foldl_nil]
      rw [if_neg (by omega), if_neg (by omega)]
  | succ n ih =>
      intro px k hn
      rw [List.range_succ, List.foldl_append, List.foldl_cons, List.foldl_nil]
      show swapAt ((List.range n).foldl (fun px col => swapAt px (a + col) (b + col)) px)
          (a + n) (b + n) k = _
      rw [swapAt_apply]
      rw [ih px (b + n) (by omega), ih px (a + n) (by omega), ih px k (by omega)]
      split_ifs <;> first | rfl | (congr 1; omega)

theorem row_eq_iff {w r m c : Nat} (hc : c < w) :
    (w * m ≤ w * r + c ∧ w * r + c < w * m + w) ↔ r = m := by
  constructor
  · rintro ⟨h1, h2⟩
    rcases Nat.lt_trichotomy r m with h | h | h
    · have hm : w * (r + 1) ≤ w * m := Nat.mul_le_mul_left w h
      have e : w * (r + 1) = w * r + w := by ring
      omega
    · exact h
    · have hm : w * (m + 1) ≤ w * r := Nat.mul_le_mul_left w h
      have e : w * (m + 1) = w * m + w := by ring
      omega
  · rintro rfl
    omega

theorem flip_fold_apply {α : Type} (px : Nat → α) (w h : Nat) :
    ∀ (m : Nat), m ≤ h / 2 →
      (∀ r c, c < w → r < h →
        ((List.range m).foldl (fun px row =>
          (List.range w).foldl
            (fun px col => swapAt px (w * row + col) (w * (h - row - 1) + col)) px) px)
          (w * r + c) =
          if r < m ∨ h - m ≤ r then px (w * (h - 1 - r) + c) else px (w * r + c)) ∧
      (∀ k, w * h ≤ k →
        ((List.range m).foldl (fun px row =>
          (List.range w).foldl
            (fun px col => swapAt px (w * row + col) (w * (h - row - 1) + col)) px) px)
          k = px k) := by
  intro m
  induction m with
  | zero =>
      intro _
      constructor
      · intro r c hc hr
        simp only [List.range_zero, List.foldl_nil]
        rw [if_neg (by omega)]
      · intro k _
        simp only [List.range_zero, List.foldl_nil]
  | succ m ih =>
      intro hm
      obtain ⟨ih1, ih2⟩ := ih (by omega)
      have hmh : 2 * (m + 1) ≤ h := by omega
      have hab : w * m + w ≤ w * (h - m - 1) := by
      -- m + 1 ≤ h - m - 1
        have : w * (m + 1) ≤ w * (h - m - 1) := Nat.mul_le_mul_left w (by omega)
        have e : w * (m + 1) = w * m + w := by ring
        omega
      have step : ∀ (q : Nat → α),
          (List.range (m + 1)).foldl (fun px row =>
            (List.range w).foldl
              (fun px col => swapAt px (w * row + col) (w * (h - row - 1) + col)) px) q =
          (List.range w).foldl
            (fun px col => swapAt px (w * m + col) (w * (h - m - 1) + col))
            ((List.range m).foldl (fun px row =>
              (List.range w).foldl
                (fun px col => swapAt px (w * row + col) (w * (h - row - 1) + col)) px) q) := by
        intro q
        rw [List.range_succ, List.foldl_append, List.foldl_cons, List.foldl_nil]
      constructor
      · intro r c hc hr
        rw [step, inner_swap_fold_apply (w * m) (w * (h - m - 1)) w hab w _ _ le_rfl]
        by_cases h1 : r = m
        · rw [h1]
          rw [if_pos (show w * m ≤ w * m + c ∧ w * m + c < w * m + w by omega)]
          have e1 : w * m + c - w * m = c := by omega
          rw [e1, ih1 (h - m - 1) c hc (by omega), if_neg (by omega), if_pos (by omega)]
          have e2 : h - 1 - m = h - m - 1 := by omega
          rw [e2]
        · by_cases h2 : r = h - m - 1
          · rw [if_neg (fun hcon => h1 ((row_eq_iff hc).1 hcon)),
              if_pos ((row_eq_iff hc).2 h2)]
            subst h2
            have e1 : w * (h - m - 1) + c - w * (h - m - 1) = c := by omega
            rw [e1, ih1 m c hc (by omega), if_neg (by omega), if_pos (by omega)]
            have e2 : h - 1 - (h - m - 1) = m := by omega
            rw [e2]
          · rw [if_neg (fun hcon => h1 ((row_eq_iff hc).1 hcon)),
              if_neg (fun hcon => h2 ((row_eq_iff hc).1 hcon))]
            rw [ih1 r c hc hr]
            by_cases hc2 : r < m ∨ h - m ≤ r
            · rw [if_pos hc2, if_pos (by omega)]
            · rw [if_neg hc2, if_neg (by omega)]
      · intro k hk
        rw [step, inner_swap_fold_apply (w * m) (w * (h - m - 1)) w hab w _ k le_rfl]
        have hw1 : w * (m + 1) ≤ w * h := Nat.mul_le_mul_left w (by omega)
        have hw2 : w * (h - m) ≤ w * h := Nat.mul_le_mul_left w (by omega)
        have e1 : w * (m + 1) = w * m + w := by ring
        have e2 : w * (h - m) = w * (h - m - 1) + w := by
          conv_lhs => rw [show h - m = (h - m - 1) + 1 from by omega]
          ring
        rw [if_neg (by omega), if_neg (by omega), ih2 k hk]

theorem flip_y_apply {α : Type} (px : Nat → α) (w h r c : Nat) (hc : c < w) (hr : r < h) :
    flip_y px w h (w * r + c) = px (w * (h - 1 - r) + c) := by
  have main := (flip_fold_apply px w h (h / 2) le_rfl).1 r c hc hr
  unfold flip_y
  rw [main]
  by_cases hcond : r < h / 2 ∨ h - h / 2 ≤ r
  · rw [if_pos hcond]
  · rw [if_neg hcond]
    have e : h - 1 - r = r := by omega
    rw [e]

theorem flip_y_apply_high {α : Type} (px : Nat → α) (w h k : Nat) (hk : w * h ≤ k) :
    flip_y px w h k = px k := by
  have main := (flip_fold_apply px w h (h / 2) le_rfl).2 k hk
  unfold flip_y
  rw [main]

/-- Claim C6: `flip_y` is an involution on any buffer for any width and
height; a single application maps row `r` to row `height - 1 - r`, and for odd
height the middle row is left untouched.  (The buffer is a total function on
flat indices; all indices the source's swaps touch lie below
`width * height`, so in-bounds buffers of length `width * height` behave
identically.) -/
theorem flip_y_involution {α : Type} (pixels : Nat → α) (width height : Nat) :
    flip_y (flip_y pixels width height) width height = pixels ∧
    (∀ r c, r < height → c < width →
      flip_y pixels width height (width * r + c) =
        pixels (width * (height - 1 - r) + c)) ∧
    (height % 2 = 1 → ∀ c, c < width →
      flip_y pixels width height (width * (height / 2) + c) =
        pixels (width * (height / 2) + c)) := by
  refine ⟨?_, ?_, ?_⟩
  · funext k
    by_cases hk : k < width * height
    · have hw : 0 < width := by
        rcases Nat.eq_zero_or_pos width with h0 | h0
        · rw [h0] at hk
          simp at hk
        · exact h0
      have hc : k % width < width := Nat.mod_lt _ hw
      have hr : k / width < height := Nat.div_lt_of_lt_mul hk
      have hdecomp : width * (k / width) + k % width = k := Nat.div_add_mod k width
      obtain ⟨q, hq⟩ : ∃ q, k / width = q := ⟨_, rfl⟩
      obtain ⟨c', hc'⟩ : ∃ c', k % width = c' := ⟨_, rfl⟩
      rw [hq] at hr
      rw [hq, hc'] at hdecomp
      rw [hc'] at hc
      have hr' : height - 1 - q < height := by omega
      have hmirror : height - 1 - (height - 1 - q) = q := by omega
      calc flip_y (flip_y pixels width height) width height k
          = flip_y (flip_y pixels width height) width height
              (width * q + c') := by rw [hdecomp]
        _ = (flip_y pixels width height)
              (width * (height - 1 - q) + c') :=
            flip_y_apply _ width height _ _ hc hr
        _ = pixels (width * (height - 1 - (height - 1 - q)) + c') :=
            flip_y_apply _ width height _ _ hc hr'
        _ = pixels (width * q + c') := by rw [hmirror]
        _ = pixels k := by rw [hdecomp]
    · push_neg at hk
      rw [flip_y_apply_high (flip_y pixels width height) width height k hk,
        flip_y_apply_high pixels width height k hk]
  · intro r c hr hc
    exact flip_y_apply pixels width height r c hc hr
  · intro hodd c hc
    rw [flip_y_apply pixels width height (height / 2) c hc (by omega)]
    rw [show height - 1 - height / 2 = height / 2 from by omega]

/-- Claim C6 witness: the theorem applied to the identity buffer at width 3,
height 3 (odd), at row 0, column 1 and at the middle row, column 2. -/
theorem flip_y_involution_witness :
    (0 : Nat) < 3 ∧ (1 : Nat) < 3 ∧ (3 : Nat) % 2 = 1 ∧ (2 : Nat) < 3 ∧
    flip_y (fun i : Nat => i) 3 3 (3 * 0 + 1) = (fun i : Nat => i) (3 * (3 - 1 - 0) + 1) ∧
    flip_y (fun i : Nat => i) 3 3 (3 * (3 / 2) + 2) = (fun i : Nat => i) (3 * (3 / 2) + 2) ∧
    flip_y (flip_y (fun i : Nat => i) 3 3) 3 3 = (fun i : Nat => i) :=
  ⟨by decide, by decide, by decide, by decide,
    (flip_y_involution (fun i : Nat => i) 3 3).2.1 0 1 (by decide) (by decide),
    (flip_y_involution (fun i : Nat => i) 3 3).2.2 (by decide) 2 (by decide),
    (flip_y_involution (fun i : Nat => i) 3 3).1⟩

/-! ## Terrain toolkit -/

theorem intRange_eq_nil {a b : Int} (h : b ≤ a) : intRange a b = [] := by
  have : (b - a).toNat = 0 := by omega
  simp [intRange, this]

theorem intRange_concat {a b : Int} (h : a < b) :
    intRange a b = intRange a (b - 1) ++ [b - 1] := by
  have hn : (b - a).toNat = (b - 1 - a).toNat + 1 := by omega
  simp only [intRange, hn, List.range_succ, List.map_append, List.map_cons, List.map_nil]
  congr 1
  simp only [List.cons.injEq, and_true]
  omega

theorem whileXUp_eq_self {x0 : Int} {s : Terrain} (h : x0 ≤ s.center.1) :
    whileXUp x0 s = s := by
  rw [whileXUp, if_neg (by omega)]

theorem whileXDown_eq_self {x0 : Int} {s : Terrain} (h : s.center.1 ≤ x0) :
    whileXDown x0 s = s := by
  rw [whileXDown, if_neg (by omega)]

theorem whileYUp_eq_self {y0 : Int} {s : Terrain} (h : y0 ≤ s.center.2) :
    whileYUp y0 s = s := by
  rw [whileYUp, if_neg (by omega)]

theorem whileYDown_eq_self {y0 : Int} {s : Terrain} (h : s.center.2 ≤ y0) :
    whileYDown y0 s = s := by
  rw [whileYDown, if_neg (by omega)]

theorem whileXUp_spec : ∀ (n : Nat) (x0 : Int) (s : Terrain), s.center.1 + n = x0 →
    whileXUp x0 s =
      { center := (x0, s.center.2),
        patches := s.patches ++
          (intRange (s.center.1 + 1) (x0 + 1)).flatMap (fun cx =>
            (intRange (s.center.2 - HALF_PATCHES_PER_SIDE)
                (s.center.2 + HALF_PATCHES_PER_SIDE + 1)).map
              (fun iy => ⟨cx + HALF_PATCHES_PER_SIDE, iy⟩)) } := by
  intro n
  induction n with
  | zero =>
      intro x0 s h
      obtain ⟨⟨c1, c2⟩, ps⟩ := s
      dsimp only at h ⊢
      rw [whileXUp_eq_self (by dsimp only; omega)]
      rw [intRange_eq_nil (by omega)]
      simp
      omega
  | succ n ih =>
      intro x0 s h
      obtain ⟨⟨c1, c2⟩, ps⟩ := s
      dsimp only at h ⊢
      rw [whileXUp, if_pos (by dsimp only; omega)]
      rw [ih x0 _ (by dsimp only; omega)]
      dsimp only
      rw [intRange_eq_cons (show c1 + 1 < x0 + 1 by omega)]
      simp [List.flatMap_cons, List.append_assoc]

theorem whileXDown_spec : ∀ (n : Nat) (x0 : Int) (s : Terrain), s.center.1 - n = x0 →
    whileXDown x0 s =
      { center := (x0, s.center.2),
        patches := s.patches ++
          ((intRange x0 s.center.1).reverse).flatMap (fun cx =>
            (intRange (s.center.2 - HALF_PATCHES_PER_SIDE)
                (s.center.2 + HALF_PATCHES_PER_SIDE + 1)).map
              (fun iy => ⟨cx - HALF_PATCHES_PER_SIDE, iy⟩)) } := by
  intro n
  induction n with
  | zero =>
      intro x0 s h
      obtain ⟨⟨c1, c2⟩, ps⟩ := s
      dsimp only at h ⊢
      rw [whileXDown_eq_self (by dsimp only; omega)]
      rw [intRange_eq_nil (by omega)]
      simp
      omega
  | succ n ih =>
      intro x0 s h
      obtain ⟨⟨c1, c2⟩, ps⟩ := s
      dsimp only at h ⊢
      rw [whileXDown, if_pos (by dsimp only; omega)]
      rw [ih x0 _ (by dsimp only; omega)]
      dsimp only
      rw [intRange_concat (show x0 < c1 by omega)]
      simp [List.reverse_append, List.flatMap_cons, List.append_assoc]

theorem whileYUp_spec : ∀ (n : Nat) (y0 : Int) (s : Terrain), s.center.2 + n = y0 →
    whileYUp y0 s =
      { center := (s.center.1, y0),
        patches := s.patches ++
          (intRange (s.center.2 + 1) (y0 + 1)).flatMap (fun cy =>
            (intRange (s.center.1 - HALF_PATCHES_PER_SIDE)
                (s.center.1 + HALF_PATCHES_PER_SIDE + 1)).map
              (fun ix => ⟨ix, cy + HALF_PATCHES_PER_SIDE⟩)) } := by
  intro n
  induction n with
  | zero =>
      intro y0 s h
      obtain ⟨⟨c1, c2⟩, ps⟩ := s
      dsimp only at h ⊢
      rw [whileYUp_eq_self (by dsimp only; omega)]
      rw [intRange_eq_nil (by omega)]
      simp
      omega
  | succ n ih =>
      intro y0 s h
      obtain ⟨⟨c1, c2⟩, ps⟩ := s
      dsimp only at h ⊢
      rw [whileYUp, if_pos (by dsimp only; omega)]
      rw [ih y0 _ (by dsimp only; omega)]
      dsimp only
      rw [intRange_eq_cons (show c2 + 1 < y0 + 1 by omega)]
      simp [List.flatMap_cons, List.append_assoc]

theorem whileYDown_spec : ∀ (n : Nat) (y0 : Int) (s : Terrain), s.center.2 - n = y0 →
    whileYDown y0 s =
      { center := (s.center.1, y0),
        patches := s.patches ++
          ((intRange y0 s.center.2).reverse).flatMap (fun cy =>
            (intRange (s.center.1 - HALF_PATCHES_PER_SIDE)
                (s.center.1 + HALF_PATCHES_PER_SIDE + 1)).map
              (fun ix => ⟨ix, cy - HALF_PATCHES_PER_SIDE⟩)) } := by
  intro n
  induction n with
  | zero =>
      intro y0 s h
      obtain ⟨⟨c1, c2⟩, ps⟩ := s
      dsimp only at h ⊢
      rw [whileYDown_eq_self (by dsimp only; omega)]
      rw [intRange_eq_nil (by omega)]
      simp
      omega
  | succ n ih =>
      intro y0 s h
      obtain ⟨⟨c1, c2⟩, ps⟩ := s
      dsimp only at h ⊢
      rw [whileYDown, if_pos (by dsimp only; omega)]
      rw [ih y0 _ (by dsimp only; omega)]
      dsimp only
      rw [intRange_concat (show y0 < c2 by omega)]
      simp [List.reverse_append, List.flatMap_cons, List.append_assoc]

theorem mem_flatMap_reverse {l : List Int} {f : Int → List GroundPatch} {p : GroundPatch} :
    p ∈ (l.reverse).flatMap f ↔ p ∈ l.flatMap f := by
  simp [List.mem_flatMap]

theorem mem_colStripAdd {lo hi ylo yhi off : Int} {p : GroundPatch} :
    p ∈ (intRange lo hi).flatMap (fun cx =>
        (intRange ylo yhi).map (fun iy => (⟨cx + off, iy⟩ : GroundPatch))) ↔
      (lo + off ≤ p.ix ∧ p.ix < hi + off ∧ ylo ≤ p.iy ∧ p.iy < yhi) := by
  simp only [List.mem_flatMap, List.mem_map, mem_intRange]
  constructor
  · rintro ⟨cx, hcx, iy, hiy, rfl⟩
    dsimp only
    omega
  · intro h
    refine ⟨p.ix - off, by omega, p.iy, by omega, ?_⟩
    obtain ⟨pix, piy⟩ := p
    simp only [GroundPatch.mk.injEq]
    constructor <;> (dsimp only at h ⊢; try omega)

theorem mem_colStripSub {lo hi ylo yhi off : Int} {p : GroundPatch} :
    p ∈ (intRange lo hi).flatMap (fun cx =>
        (intRange ylo yhi).map (fun iy => (⟨cx - off, iy⟩ : GroundPatch))) ↔
      (lo - off ≤ p.ix ∧ p.ix < hi - off ∧ ylo ≤ p.iy ∧ p.iy < yhi) := by
  simp only [List.mem_flatMap, List.mem_map, mem_intRange]
  constructor
  · rintro ⟨cx, hcx, iy, hiy, rfl⟩
    dsimp only
    omega
  · intro h
    refine ⟨p.ix + off, by omega, p.iy, by omega, ?_⟩
    obtain ⟨pix, piy⟩ := p
    simp only [GroundPatch.mk.injEq]
    constructor <;> (dsimp only at h ⊢; try omega)

theorem mem_rowStripAdd {lo hi xlo xhi off : Int} {p : GroundPatch} :
    p ∈ (intRange lo hi).flatMap (fun cy =>
        (intRange xlo xhi).map (fun ix => (⟨ix, cy + off⟩ : GroundPatch))) ↔
      (xlo ≤ p.ix ∧ p.ix < xhi ∧ lo + off ≤ p.iy ∧ p.iy < hi + off) := by
  simp only [List.mem_flatMap, List.mem_map, mem_intRange]
  constructor
  · rintro ⟨cy, hcy, ix, hix, rfl⟩
    dsimp only
    omega
  · intro h
    refine ⟨p.iy - off, by omega, p.ix, by omega, ?_⟩
    obtain ⟨pix, piy⟩ := p
    simp only [GroundPatch.mk.injEq]
    constructor <;> (dsimp only at h ⊢; try omega)

theorem mem_rowStripSub {lo hi xlo xhi off : Int} {p : GroundPatch} :
    p ∈ (intRange lo hi).flatMap (fun cy =>
        (intRange xlo xhi).map (fun ix => (⟨ix, cy - off⟩ : GroundPatch))) ↔
      (xlo ≤ p.ix ∧ p.ix < xhi ∧ lo - off ≤ p.iy ∧ p.iy < hi - off) := by
  simp only [List.mem_flatMap, List.mem_map, mem_intRange]
  constructor
  · rintro ⟨cy, hcy, ix, hix, rfl⟩
    dsimp only
    omega
  · intro h
    refine ⟨p.iy + off, by omega, p.ix, by omega, ?_⟩
    obtain ⟨pix, piy⟩ := p
    simp only [GroundPatch.mk.injEq]
    constructor <;> (dsimp only at h ⊢; try omega)

theorem nodup_colStripAdd {lo hi ylo yhi off : Int} :
    ((intRange lo hi).flatMap (fun cx =>
      (intRange ylo yhi).map (fun iy => (⟨cx + off, iy⟩ : GroundPatch)))).Nodup := by
  apply nodup_flatMap_map _ _ (intRange_nodup _ _) (intRange_nodup _ _)
  intro a a' b b' h
  simp only [GroundPatch.mk.injEq] at h
  omega

theorem nodup_colStripSub {lo hi ylo yhi off : Int} :
    (((intRange lo hi).reverse).flatMap (fun cx =>
      (intRange ylo yhi).map (fun iy => (⟨cx - off, iy⟩ : GroundPatch)))).Nodup := by
  apply nodup_flatMap_map _ _ (List.nodup_reverse.2 (intRange_nodup _ _)) (intRange_nodup _ _)
  intro a a' b b' h
  simp only [GroundPatch.mk.injEq] at h
  omega

theorem nodup_rowStripAdd {lo hi xlo xhi off : Int} :
    ((intRange lo hi).flatMap (fun cy =>
      (intRange xlo xhi).map (fun ix => (⟨ix, cy + off⟩ : GroundPatch)))).Nodup := by
  apply nodup_flatMap_map _ _ (intRange_nodup _ _) (intRange_nodup _ _)
  intro a a' b b' h
  simp only [GroundPatch.mk.injEq] at h
  omega

theorem nodup_rowStripSub {lo hi xlo xhi off : Int} :
    (((intRange lo hi).reverse).flatMap (fun cy =>
      (intRange xlo xhi).map (fun ix => (⟨ix, cy - off⟩ : GroundPatch)))).Nodup := by
  apply nodup_flatMap_map _ _ (List.nodup_reverse.2 (intRange_nodup _ _)) (intRange_nodup _ _)
  intro a a' b b' h
  simp only [GroundPatch.mk.injEq] at h
  omega

theorem HALF_toNat : HALF_PATCHES_PER_SIDE.toNat = 16 := by decide

theorem xLoops_spec (x0 : Int) (c1 c2 : Int) (ps : List GroundPatch) :
    ∃ LX : List GroundPatch,
      whileXDown x0 (whileXUp x0 ⟨(c1, c2), ps⟩) = ⟨(x0, c2), ps ++ LX⟩ ∧
      (∀ p, p ∈ LX ↔ stripX (c1, c2) x0 p) ∧ LX.Nodup := by
  rcases le_or_lt c1 x0 with hle | hlt
  · refine ⟨(intRange (c1 + 1) (x0 + 1)).flatMap (fun cx =>
      (intRange (c2 - HALF_PATCHES_PER_SIDE) (c2 + HALF_PATCHES_PER_SIDE + 1)).map
        (fun iy => ⟨cx + HALF_PATCHES_PER_SIDE, iy⟩)), ?_, ?_, ?_⟩
    · rw [whileXUp_spec (x0 - c1).toNat x0 _ (by dsimp only; omega)]
      dsimp only
      rw [whileXDown_eq_self (by dsimp only; omega)]
    · intro p
      rw [mem_colStripAdd]
      unfold stripX
      dsimp only
      rw [HALF_eq]
      omega
    · exact nodup_colStripAdd
  · refine ⟨((intRange x0 c1).reverse).flatMap (fun cx =>
      (intRange (c2 - HALF_PATCHES_PER_SIDE) (c2 + HALF_PATCHES_PER_SIDE + 1)).map
        (fun iy => ⟨cx - HALF_PATCHES_PER_SIDE, iy⟩)), ?_, ?_, ?_⟩
    · rw [whileXUp_eq_self (by dsimp only; omega)]
      rw [whileXDown_spec (c1 - x0).toNat x0 _ (by dsimp only; omega)]
    · intro p
      rw [mem_flatMap_reverse, mem_colStripSub]
      unfold stripX
      dsimp only
      rw [HALF_eq]
      omega
    · exact nodup_colStripSub

theorem yLoops_spec (y0 : Int) (x0 c2 : Int) (ps2 : List GroundPatch) :
    ∃ LY : List GroundPatch,
      whileYDown y0 (whileYUp y0 ⟨(x0, c2), ps2⟩) = ⟨(x0, y0), ps2 ++ LY⟩ ∧
      (∀ p, p ∈ LY ↔ stripY (x0, c2) x0 y0 p) ∧ LY.Nodup := by
  rcases le_or_lt c2 y0 with hle | hlt
  · refine ⟨(intRange (c2 + 1) (y0 + 1)).flatMap (fun cy =>
      (intRange (x0 - HALF_PATCHES_PER_SIDE) (x0 + HALF_PATCHES_PER_SIDE + 1)).map
        (fun ix => ⟨ix, cy + HALF_PATCHES_PER_SIDE⟩)), ?_, ?_, ?_⟩
    · rw [whileYUp_spec (y0 - c2).toNat y0 _ (by dsimp only; omega)]
      dsimp only
      rw [whileYDown_eq_self (by dsimp only; omega)]
    · intro p
      rw [mem_rowStripAdd]
      unfold stripY
      dsimp only
      rw [HALF_eq]
      omega
    · exact nodup_rowStripAdd
  · refine ⟨((intRange y0 c2).reverse).flatMap (fun cy =>
      (intRange (x0 - HALF_PATCHES_PER_SIDE) (x0 + HALF_PATCHES_PER_SIDE + 1)).map
        (fun ix => ⟨ix, cy - HALF_PATCHES_PER_SIDE⟩)), ?_, ?_, ?_⟩
    · rw [whileYUp_eq_self (by dsimp only; omega)]
      rw [whileYDown_spec (c2 - y0).toNat y0 _ (by dsimp only; omega)]
    · intro p
      rw [mem_flatMap_reverse, mem_rowStripSub]
      unfold stripY
      dsimp only
      rw [HALF_eq]
      omega
    · exact nodup_rowStripSub

theorem update_spec (x0 y0 : Int) (s : Terrain) (hInv : TerrainInv s) :
    (Terrain.update x0 y0 s).center = (x0, y0) ∧ TerrainInv (Terrain.update x0 y0 s) := by
  obtain ⟨⟨c1, c2⟩, ps⟩ := s
  obtain ⟨hnd, hmem⟩ := hInv
  dsimp only at hnd hmem
  obtain ⟨LX, hXeq, hXmem, hXnd⟩ := xLoops_spec x0 c1 c2 ps
  obtain ⟨LY, hYeq, hYmem, hYnd⟩ := yLoops_spec y0 x0 c2 (ps ++ LX)
  have hdisjX : ps.Disjoint LX := by
    intro a ha hc
    have h1 := (hmem a).1 ha
    have h2 := (hXmem a).1 hc
    unfold inWindow at h1
    unfold stripX at h2
    dsimp only at h1 h2
    rw [HALF_toNat] at h1
    omega
  have hndPX : (ps ++ LX).Nodup := by
    rw [List.nodup_append]
    exact ⟨hnd, hXnd, hdisjX⟩
  have hdisjY : (ps ++ LX).Disjoint LY := by
    intro a ha hc
    have h2 := (hYmem a).1 hc
    unfold stripY at h2
    dsimp only at h2
    rcases List.mem_append.1 ha with h | h
    · have h1 := (hmem a).1 h
      unfold inWindow at h1
      dsimp only at h1
      rw [HALF_toNat] at h1
      omega
    · have h1 := (hXmem a).1 h
      unfold stripX at h1
      dsimp only at h1
      omega
  have hndAll : ((ps ++ LX) ++ LY).Nodup := by
    rw [List.nodup_append]
    exact ⟨hndPX, hYnd, hdisjY⟩
  unfold Terrain.update
  rw [hXeq, hYeq]
  refine ⟨rfl, ?_, ?_⟩
  · exact hndAll.filter _
  · intro p
    rw [List.mem_filter]
    simp only [decide_eq_true_eq]
    constructor
    · rintro ⟨-, hpred⟩
      rw [HALF_toNat] at hpred
      unfold inWindow
      dsimp only
      rw [HALF_toNat]
      omega
    · intro hin
      unfold inWindow at hin
      dsimp only at hin
      rw [HALF_toNat] at hin
      constructor
      · simp only [List.mem_append]
        by_cases hiy : c2 - 16 ≤ p.iy ∧ p.iy ≤ c2 + 16
        · by_cases hix : c1 - 16 ≤ p.ix ∧ p.ix ≤ c1 + 16
          · left; left
            exact (hmem p).2 (by unfold inWindow; dsimp only; rw [HALF_toNat]; omega)
          · left; right
            exact (hXmem p).2 (by unfold stripX; dsimp only; omega)
        · right
          exact (hYmem p).2 (by unfold stripY; dsimp only; omega)
      · rw [HALF_toNat]
        omega

theorem mem_new_patches {x0 y0 : Int} {p : GroundPatch} :
    p ∈ (Terrain.new x0 y0).patches ↔ inWindow (x0, y0) p := by
  unfold Terrain.new inWindow
  dsimp only
  rw [HALF_toNat, HALF_eq]
  simp only [List.mem_flatMap, List.mem_map, mem_intRange]
  constructor
  · rintro ⟨ix, hix, iy, hiy, rfl⟩
    dsimp only
    omega
  · intro h
    refine ⟨p.ix, by omega, p.iy, by omega, ?_⟩
    obtain ⟨pix, piy⟩ := p
    rfl

theorem nodup_new_patches (x0 y0 : Int) : (Terrain.new x0 y0).patches.Nodup := by
  unfold Terrain.new
  dsimp only
  apply nodup_flatMap_map _ _ (intRange_nodup _ _) (intRange_nodup _ _)
    (fun a b => (⟨a, b⟩ : GroundPatch))
  intro a a' b b' h
  simpa only [GroundPatch.mk.injEq] using h

theorem new_inv (x0 y0 : Int) : TerrainInv (Terrain.new x0 y0) :=
  ⟨nodup_new_patches x0 y0, fun _ => mem_new_patches⟩

theorem new_patches_length (x0 y0 : Int) :
    (Terrain.new x0 y0).patches.length = PATCHES_PER_SIDE * PATCHES_PER_SIDE := by
  unfold Terrain.new
  dsimp only
  rw [length_flatMap_const _ _ PATCHES_PER_SIDE ?cols]
  · rw [intRange_length, HALF_eq]
    have : ((x0 + 16 + 1) - (x0 - 16)).toNat = 33 := by omega
    rw [this]
    rfl
  case cols =>
    intro a _
    rw [List.length_map, intRange_length, HALF_eq]
    have : ((y0 + 16 + 1) - (y0 - 16)).toNat = 33 := by omega
    rw [this]
    rfl

/-! ## Claim C2: the pager's window invariant -/

/-- Claim C2: starting from a freshly constructed `Terrain` and applying any
sequence of `update` calls, after the last update the patch collection holds
exactly `PATCHES_PER_SIDE^2 = 1089` patches, each within
`HALF_PATCHES_PER_SIDE = 16` of the cached center on both axes, and the
center is the patch coordinate of the last updated position. -/
theorem terrain_update_window_invariant (ix0 iy0 x0 y0 : Int)
    (prior : List (Int × Int)) :
    ((prior ++ [(x0, y0)]).foldl (fun s u => Terrain.update u.1 u.2 s)
        (Terrain.new ix0 iy0)).center = (x0, y0) ∧
    ((prior ++ [(x0, y0)]).foldl (fun s u => Terrain.update u.1 u.2 s)
        (Terrain.new ix0 iy0)).patches.length = PATCHES_PER_SIDE ^ 2 ∧
    ∀ p ∈ ((prior ++ [(x0, y0)]).foldl (fun s u => Terrain.update u.1 u.2 s)
        (Terrain.new ix0 iy0)).patches,
      (p.ix - x0).natAbs ≤ HALF_PATCHES_PER_SIDE.toNat ∧
      (p.iy - y0).natAbs ≤ HALF_PATCHES_PER_SIDE.toNat := by
  have hfold : ∀ (l : List (Int × Int)) (s : Terrain), TerrainInv s →
      TerrainInv (l.foldl (fun s u => Terrain.update u.1 u.2 s) s) := by
    intro l
    induction l with
    | nil => intro s hs; exact hs
    | cons u t ih =>
        intro s hs
        exact ih _ ((update_spec u.1 u.2 s hs).2)
  have hprior : TerrainInv (prior.foldl (fun s u => Terrain.update u.1 u.2 s)
      (Terrain.new ix0 iy0)) := hfold prior _ (new_inv ix0 iy0)
  rw [List.foldl_append]
  simp only [List.foldl_cons, List.foldl_nil]
  obtain ⟨hc, hinv⟩ := update_spec x0 y0 _ hprior
  obtain ⟨hnd, hmem⟩ := hinv
  rw [hc] at hmem
  refine ⟨hc, ?_, ?_⟩
  · have hsame : ∀ p, p ∈ (Terrain.update x0 y0 (prior.foldl
        (fun s u => Terrain.update u.1 u.2 s) (Terrain.new ix0 iy0))).patches ↔
        p ∈ (Terrain.new x0 y0).patches := by
      intro p
      rw [hmem p, mem_new_patches]
    rw [show PATCHES_PER_SIDE ^ 2 = PATCHES_PER_SIDE * PATCHES_PER_SIDE from by ring,
      ← new_patches_length x0 y0]
    exact length_eq_of_same_mem hnd (nodup_new_patches x0 y0) hsame
  · intro p hp
    have h := (hmem p).1 hp
    unfold inWindow at h
    dsimp only at h
    exact h

theorem mem_filter_not_mem {l₁ l₂ : List GroundPatch} {p : GroundPatch} :
    p ∈ l₁.filter (fun q => decide (q ∉ l₂)) ↔ p ∈ l₁ ∧ p ∉ l₂ := by
  simp [List.mem_filter]

theorem mem_colList {cx a b : Int} {p : GroundPatch} :
    p ∈ (intRange a b).map (fun iy => (⟨cx, iy⟩ : GroundPatch)) ↔
      p.ix = cx ∧ a ≤ p.iy ∧ p.iy < b := by
  simp only [List.mem_map, mem_intRange]
  constructor
  · rintro ⟨iy, hiy, rfl⟩
    dsimp only
    omega
  · intro h
    obtain ⟨pix, piy⟩ := p
    dsimp only at h
    refine ⟨piy, by omega, ?_⟩
    simp only [GroundPatch.mk.injEq]
    exact ⟨h.1.symm, trivial⟩

theorem nodup_colList {cx a b : Int} :
    ((intRange a b).map (fun iy => (⟨cx, iy⟩ : GroundPatch))).Nodup := by
  apply List.Nodup.map _ (intRange_nodup a b)
  intro i j hij
  simpa only [GroundPatch.mk.injEq, true_and] using hij

/-! ## Claim C5: a one-patch shift along x -/

/-- Claim C5: from any state satisfying the window invariant with center
`(cx, cy)`, an update whose patch coordinate is `(cx + 1, cy)` moves the
center by exactly one along x; the live set afterwards consists of the old
patches minus the evicted column `ix = cx - 16` plus the freshly created
column `ix = cx + 17`; exactly `PATCHES_PER_SIDE = 33` patches are new (all
at `ix = cx + 17`) and exactly `PATCHES_PER_SIDE` are evicted (all at
`ix = cx - 16`); every other patch stays live. -/
theorem terrain_update_one_column (s : Terrain) (cx cy : Int)
    (hInv : TerrainInv s) (hc : s.center = (cx, cy)) :
    (Terrain.update (cx + 1) cy s).center = (cx + 1, cy) ∧
    (∀ p, p ∈ (Terrain.update (cx + 1) cy s).patches ↔
      ((p ∈ s.patches ∧ p.ix ≠ cx - 16) ∨
       (p.ix = cx + 17 ∧ cy - 16 ≤ p.iy ∧ p.iy ≤ cy + 16))) ∧
    ((Terrain.update (cx + 1) cy s).patches.filter
        (fun p => decide (p ∉ s.patches))).length = PATCHES_PER_SIDE ∧
    (∀ p ∈ (Terrain.update (cx + 1) cy s).patches.filter
        (fun p => decide (p ∉ s.patches)), p.ix = cx + 17) ∧
    (s.patches.filter
        (fun p => decide (p ∉ (Terrain.update (cx + 1) cy s).patches))).length =
      PATCHES_PER_SIDE ∧
    (∀ p ∈ s.patches.filter
        (fun p => decide (p ∉ (Terrain.update (cx + 1) cy s).patches)),
      p.ix = cx - 16) := by
  obtain ⟨hcen, hinv'⟩ := update_spec (cx + 1) cy s hInv
  obtain ⟨hnd', hmem'⟩ := hinv'
  rw [hcen] at hmem'
  obtain ⟨hnd, hmem⟩ := hInv
  rw [hc] at hmem
  have hmemS : ∀ p : GroundPatch, p ∈ s.patches ↔
      (cx - 16 ≤ p.ix ∧ p.ix ≤ cx + 16 ∧ cy - 16 ≤ p.iy ∧ p.iy ≤ cy + 16) := by
    intro p
    rw [hmem p]
    unfold inWindow
    dsimp only
    rw [HALF_toNat]
    omega
  have hmemU : ∀ p : GroundPatch, p ∈ (Terrain.update (cx + 1) cy s).patches ↔
      (cx - 15 ≤ p.ix ∧ p.ix ≤ cx + 17 ∧ cy - 16 ≤ p.iy ∧ p.iy ≤ cy + 16) := by
    intro p
    rw [hmem' p]
    unfold inWindow
    dsimp only
    rw [HALF_toNat]
    omega
  have hiff : ∀ p, p ∈ (Terrain.update (cx + 1) cy s).patches ↔
      ((p ∈ s.patches ∧ p.ix ≠ cx - 16) ∨
       (p.ix = cx + 17 ∧ cy - 16 ≤ p.iy ∧ p.iy ≤ cy + 16)) := by
    intro p
    rw [hmemU p, hmemS p]
    omega
  have hnew : ∀ p, p ∈ (Terrain.update (cx + 1) cy s).patches.filter
      (fun p => decide (p ∉ s.patches)) ↔
      p ∈ (intRange (cy - 16) (cy + 17)).map (fun iy => (⟨cx + 17, iy⟩ : GroundPatch)) := by
    intro p
    rw [mem_filter_not_mem, mem_colList, hmemU p, hmemS p]
    omega
  have hev : ∀ p, p ∈ s.patches.filter
      (fun p => decide (p ∉ (Terrain.update (cx + 1) cy s).patches)) ↔
      p ∈ (intRange (cy - 16) (cy + 17)).map (fun iy => (⟨cx - 16, iy⟩ : GroundPatch)) := by
    intro p
    rw [mem_filter_not_mem, mem_colList, hmemU p, hmemS p]
    omega
  have hlen33 : ((intRange (cy - 16) (cy + 17)).length) = PATCHES_PER_SIDE := by
    rw [intRange_length]
    have : (cy + 17 - (cy - 16)).toNat = 33 := by omega
    rw [this]
    rfl
  refine ⟨hcen, hiff, ?_, ?_, ?_, ?_⟩
  · rw [length_eq_of_same_mem (hnd'.filter _) nodup_colList hnew, List.length_map]
    exact hlen33
  · intro p hp
    have := (hnew p).1 hp
    rw [mem_colList] at this
    exact this.1
  · rw [length_eq_of_same_mem (hnd.filter _) nodup_colList hev, List.length_map]
    exact hlen33
  · intro p hp
    have := (hev p).1 hp
    rw [mem_colList] at this
    exact this.1

/-- Claim C5 witness: the theorem applied to the freshly constructed terrain
at the origin, updated to patch coordinate (1, 0). -/
theorem terrain_update_one_column_witness :
    (Terrain.update 1 0 (Terrain.new 0 0)).center = (1, 0) ∧
    ((Terrain.update 1 0 (Terrain.new 0 0)).patches.filter
        (fun p => decide (p ∉ (Terrain.new 0 0).patches))).length = PATCHES_PER_SIDE := by
  have h := terrain_update_one_column (Terrain.new 0 0) 0 0 (new_inv 0 0) rfl
  exact ⟨by simpa using h.1, by simpa using h.2.2.1⟩
